import Mathlib

/-!
Shallow embedding of the verification subsystem of the identity service:

* the time-windowed one-time code engine and the verification token
  (`src/selfservice/strategy/link/token_verification.go`),
* the verifiable-address reconciler (`SchemaExtensionVerification` in
  `src/unnamed/part_001`),
* the credential-discovery probe (`knownCredentials`, present in two copies:
  `src/identity/handler.go` and the second document of `src/unnamed/part_001`).

Machine integers do not occur; Go `time.Time` values are modelled as UTC Unix
seconds (`Nat`).  External collaborators (stores, the `gotp` HMAC OTP
generator, the `randx` random-string generator, the JSON-schema email format
check) are modelled as explicit parameters, mirroring the interfaces the code
consumes.
-/

/-! ### Code engine (`token_verification.go`) -/

/-- Go `combineSecret(secret, token string) string { return token + secret }`. -/
def combineSecret (secret token : String) : String :=
  token ++ secret

/-- Value of a `gotp` TOTP instance `NewTOTP(secret, 6, 86400, nil)` at a Unix
timestamp: the library computes `hotp(secret, timestamp / interval)` where
`hotp` is its keyed HMAC-based 6-digit OTP generator.  The generator itself is
external library code and is abstracted as the parameter `hotp`; the 24-hour
window arithmetic, which this file reasons about, is explicit. -/
def totpAt (hotp : String → Nat → Nat) (secret : String) (timestamp : Nat) : Nat :=
  hotp secret (timestamp / 86400)

/-- Go `(f *VerificationToken) GetCode(codeSecret string) string`: derives the
code of the current 24h window from the combined secret.  The token's stored
secret is passed explicitly (`tokenSecret`), and the current time as `now`. -/
def GetCode (hotp : String → Nat → Nat) (codeSecret tokenSecret : String) (now : Nat) : Nat :=
  totpAt hotp (combineSecret codeSecret tokenSecret) now

/-- Go `VerifyTokenCode(codeSecret, token, code string) bool`: accepts if the
submitted code matches the current window's code, or the code of the window at
the current time minus one day (`time.Now().AddDate(0, 0, -1)`, i.e. 86400
seconds earlier). -/
def VerifyTokenCode (hotp : String → Nat → Nat) (codeSecret token : String)
    (code : Nat) (now : Nat) : Bool :=
  if code = totpAt hotp (combineSecret codeSecret token) now then
    true
  else if code = totpAt hotp (combineSecret codeSecret token) (now - 86400) then
    true
  else
    false

/-- Concrete OTP generator used by the code-engine witness. -/
def hotpW : String → Nat → Nat := fun _ n => n

/-! ### Verification token (`token_verification.go`) -/

/-- Modelled from the `gotp` library contract used by the source:
`gotp.RandomSecret(16)` draws 16 independent uniform characters from the
32-character base32 alphabet.  The alphabet of base32 secrets. -/
def base32Chars : List Char :=
  "ABCDEFGHIJKLMNOPQRSTUVWXYZ234567".toList

/-- Modelled from the `ory/x randx` library contract used by the source:
`randx.MustString(32, randx.AlphaNum)` draws 32 independent uniform characters
from the 62-character alphanumeric alphabet. -/
def alphaNumChars : List Char :=
  "abcdefghijklmnopqrstuvwxyzABCDEFGHIJKLMNOPQRSTUVWXYZ0123456789".toList

/-- One random base32 character. -/
def base32Char (d : Fin 32) : Char :=
  base32Chars.getD d.val 'A'

/-- One random alphanumeric character. -/
def alphaNumChar (d : Fin 62) : Char :=
  alphaNumChars.getD d.val 'a'

/-- Result of `gotp.RandomSecret(16)` for a given random draw. -/
def RandomSecret (d : Fin 16 → Fin 32) : String :=
  ⟨List.ofFn (fun i => base32Char (d i))⟩

/-- Result of `randx.MustString(32, randx.AlphaNum)` for a given random draw. -/
def MustString (d : Fin 32 → Fin 62) : String :=
  ⟨List.ofFn (fun i => alphaNumChar (d i))⟩

/-- The random draws consumed by token creation. -/
structure TokenRand where
  codeDraw : Fin 16 → Fin 32
  linkDraw : Fin 32 → Fin 62

/-- The verifiable address entity: `value`, `via` and the `verified` flag,
which are the fields the reconciler's equality and merging logic reads
(`Value`, `Via`, `Verified` in Go).  Opaque identifiers (row IDs, identity ID,
timestamps) carried by the Go struct play no role in any claim and are
omitted. -/
structure VerifiableAddress where
  value : String
  via : String
  verified : Bool
deriving DecidableEq, Repr

/-- The verification token: `Token` (secret material), the linked address,
expiry and issuance instants (UTC Unix seconds) and the enclosing flow ID. -/
structure VerificationToken where
  Token : String
  VerifiableAddress : VerifiableAddress
  ExpiresAt : Nat
  IssuedAt : Nat
  FlowID : Option Nat
deriving DecidableEq

/-- Go `NewSelfServiceVerificationToken(useCode, address, f, expiresIn)`:
`useCode` selects `gotp.RandomSecret(16)`, otherwise
`randx.MustString(32, randx.AlphaNum)`; `IssuedAt = now`, `ExpiresAt =
now + expiresIn`, the address and the flow ID are bound. -/
def NewSelfServiceVerificationToken (useCode : Bool) (address : VerifiableAddress)
    (flowID : Nat) (expiresIn : Nat) (now : Nat) (rand : TokenRand) : VerificationToken :=
  { Token := if useCode then RandomSecret rand.codeDraw else MustString rand.linkDraw
    VerifiableAddress := address
    ExpiresAt := now + expiresIn
    IssuedAt := now
    FlowID := some flowID }

/-- Go `(f *VerificationToken) Valid() error`: returns the flow-expired error
carrying `f.ExpiresAt` when `f.ExpiresAt.Before(now)`, i.e. strictly before
the current time, and `nil` otherwise.  `some e` models the expired error
carrying the expiry timestamp `e`; `none` models success. -/
def Valid (f : VerificationToken) (now : Nat) : Option Nat :=
  if f.ExpiresAt < now then some f.ExpiresAt else none

/-- Number of distinct secrets `gotp.RandomSecret(16)` can produce. -/
def codeSecretCount : Nat :=
  (Finset.univ.image RandomSecret).card

/-- Fixed token used in concrete evaluations below. -/
def tokC3 : VerificationToken :=
  { Token := "t", VerifiableAddress := ⟨"a@b.co", "email", false⟩,
    ExpiresAt := 5, IssuedAt := 0, FlowID := some 1 }

/-! ### Address reconciler (`SchemaExtensionVerification` in `src/unnamed/part_001`) -/

/-- Modelled from the spec: `NewVerifiableEmailAddress` is called by the
reconciler but defined outside the provided sources.  Per the spec it
constructs a candidate address `{value: normalized(value), via: "email"}`,
freshly unverified, associated with the identity (the Go call site applies
`fmt.Sprintf("%s", value)`, the identity on strings, before construction). -/
def NewVerifiableEmailAddress (value : String) : VerifiableAddress :=
  { value := value, via := "email", verified := false }

/-- One trait field visited during a validation pass: the configured
verification channel (`s.Verification.Via`) and the field's value. -/
structure TraitField where
  via : String
  value : String
deriving DecidableEq, Repr

/-- Errors `Run` can raise: the email-format violation and the unknown
verification channel violation. -/
inductive RunError where
  | formatViolation (value : String)
  | unknownVia (via : String)
deriving DecidableEq, Repr

/-- Reconciler state: `i` is the identity's pre-existing verifiable-address
list (`r.i.VerifiableAddresses`, only read by `Run`), `v` is the accumulator
(`r.v`, called `pending` by the spec).  The configured lifespan is unused by
the reconciliation logic and omitted; the mutex serialises field visits and is
modelled by the sequential fold below. -/
structure SchemaExtensionVerification where
  i : List VerifiableAddress
  v : List VerifiableAddress
deriving DecidableEq, Repr

namespace SchemaExtensionVerification

/-- Go `(r *SchemaExtensionVerification) has(haystack, needle)`: first element
of `haystack` whose `(Value, Via)` pair equals the needle's, if any. -/
def has (haystack : List VerifiableAddress) (needle : VerifiableAddress) :
    Option VerifiableAddress :=
  haystack.find? (fun a => a.value == needle.value && a.via == needle.via)

/-- Go `(r *SchemaExtensionVerification) Run(ctx, s, value)`.  The `switch` on
`s.Verification.Via` is rendered as an equality chain; `emailFormat` stands
for the external `jsonschema.Formats["email"]` check. -/
def Run (emailFormat : String → Bool) (r : SchemaExtensionVerification)
    (cfgVia : String) (value : String) : Except RunError SchemaExtensionVerification :=
  if cfgVia = "email" then
    if emailFormat value = false then
      .error (.formatViolation value)
    else
      let address := NewVerifiableEmailAddress value
      match has r.i address with
      | some ex =>
        match has r.v address with
        | none => .ok { r with v := r.v ++ [ex] }
        | some _ => .ok r
      | none =>
        match has r.v address with
        | none => .ok { r with v := r.v ++ [address] }
        | some _ => .ok r
  else if cfgVia = "" then
    .ok r
  else
    .error (.unknownVia cfgVia)

/-- One validation pass: `Run` invoked once per field, in order. -/
def runFields (emailFormat : String → Bool) (r : SchemaExtensionVerification) :
    List TraitField → Except RunError SchemaExtensionVerification
  | [] => .ok r
  | f :: fs =>
    match Run emailFormat r f.via f.value with
    | .error e => .error e
    | .ok r2 => runFields emailFormat r2 fs

/-- Go `(r *SchemaExtensionVerification) Finish()`: the identity's
verifiable-address list is replaced, in its entirety, by the accumulator
(`r.i.VerifiableAddresses = r.v`).  Returns the replacement list. -/
def Finish (r : SchemaExtensionVerification) : List VerifiableAddress :=
  r.v

/-- A full reconciliation pass over a trait document: fresh state, `Run` per
field, then `Finish`. -/
def reconcile (emailFormat : String → Bool) (existing : List VerifiableAddress)
    (fields : List TraitField) : Except RunError (List VerifiableAddress) :=
  (runFields emailFormat ⟨existing, []⟩ fields).map Finish

/-- The entry the pass produces for an email-field value: the first matching
pre-existing address when there is one (carrying over its `verified` flag),
otherwise the freshly constructed unverified candidate. -/
def resolve (existing : List VerifiableAddress) (value : String) : VerifiableAddress :=
  (has existing (NewVerifiableEmailAddress value)).getD (NewVerifiableEmailAddress value)

/-- A field the validator accepts: an email-channel field whose value passes
the format check, or a field with no verification channel configured. -/
def fieldOk (emailFormat : String → Bool) (f : TraitField) : Bool :=
  if f.via = "email" then emailFormat f.value
  else if f.via = "" then true
  else false

/-- The email-field values of a pass, in order of first occurrence, appended
to the accumulator `ks`. -/
def accVals (ks : List String) : List TraitField → List String
  | [] => ks
  | f :: fs =>
    accVals (if f.via = "email" then (if f.value ∈ ks then ks else ks ++ [f.value]) else ks) fs

/-- Concrete inputs used by the witnesses: a format check accepting every
value, one pre-existing verified address, and a trait document naming it
twice plus one fresh address. -/
def efW : String → Bool := fun _ => true

/-- Pre-existing address list for the witnesses. -/
def exW : List VerifiableAddress := [⟨"a@b", "email", true⟩]

/-- Trait fields for the witnesses. -/
def fsW : List TraitField := [⟨"email", "a@b"⟩, ⟨"email", "c@d"⟩, ⟨"email", "a@b"⟩]

/-- Expected reconciled list for the witnesses. -/
def outW : List VerifiableAddress := [⟨"a@b", "email", true⟩, ⟨"c@d", "email", false⟩]

/-- Expected final reconciler state for the witnesses. -/
def stW : SchemaExtensionVerification := ⟨exW, outW⟩

end SchemaExtensionVerification

/-! ### Credential-discovery probe (`knownCredentials`, two copies) -/

/-- Modelled from the spec: the credential record surfaced by
`Identity.GetCredentials` — its human-readable identifiers and, for the OIDC
type, the provider names carried by its configuration payload (the Go handlers
read `gjson.Get(config, "providers")[i].provider`). -/
structure Credentials where
  identifiers : List String
  providers : List String
deriving DecidableEq, Repr

/-- Modelled from the spec: the partial view of an identity the probe reads,
`getCredentials(type) → Credentials | absent` for the password and OIDC
credential types. -/
structure KIdentity where
  password : Option Credentials
  oidc : Option Credentials
deriving DecidableEq, Repr

/-- Outcome of one read against a store collaborator: a row, the not-found
error (`sqlcon.ErrNoRows`), or any other failure. -/
inductive Lookup (α : Type) where
  | found (a : α)
  | notFound
  | failure
deriving DecidableEq, Repr

/-- The read-only collaborator state a single probe run observes: the result
of `FindVerifiableAddressByValue(email, identifier)`, the result of
`GetIdentityConfidential(address.IdentityID)` (consulted only when an address
was found), and the result of
`FindByCredentialsIdentifier(password, identifier)`. -/
structure ProbeEnv where
  addr : Lookup Unit
  ident : Lookup KIdentity
  byCred : Lookup Unit
deriving DecidableEq, Repr

/-- The parsed request body: `identifier` and `method`. -/
structure KCRequest where
  identifier : String
  method : String
deriving DecidableEq, Repr

/-- One entry of the response's method list. -/
structure KCMethod where
  method : String
  username : String
  provider : String
deriving DecidableEq, Repr

/-- Outcome of a probe run: a 400, a 500, or the `{found, methods}` payload. -/
inductive KCResult where
  | badRequest
  | internalError
  | ok (found : Bool) (methods : List KCMethod)
deriving DecidableEq, Repr

/-- The identity-resolution steps shared verbatim by both copies: a
non-not-found failure of either lookup aborts; a missing address or identity
is a normal negative result (`nil` identity). -/
def lookupIdentity (env : ProbeEnv) : Except Unit (Option KIdentity) :=
  match env.addr with
  | .failure => .error ()
  | .notFound => .ok none
  | .found _ =>
    match env.ident with
    | .failure => .error ()
    | .notFound => .ok none
    | .found i => .ok (some i)

/-- The `knownCredentials` handler of `src/identity/handler.go`.  `none`
models the run crashing: in the password branch this copy calls
`identity.GetCredentials(...)` without a nil check, which dereferences the nil
identity pointer when no identity was resolved (modelled from the spec's
`getCredentials` contract, an operation of an identity).  `some r` is a run
that completed with outcome `r`. -/
def knownCredentialsHandlerGo (kcr : KCRequest) (env : ProbeEnv) : Option KCResult :=
  if kcr.identifier = "" then
    some .badRequest
  else if kcr.method ≠ "" ∧ kcr.method ≠ "oidc" ∧ kcr.method ≠ "password" then
    some .badRequest
  else
    match lookupIdentity env with
    | .error _ => some .internalError
    | .ok identity =>
      let passStep : Option (Bool × List KCMethod) :=
        if kcr.method = "password" ∨ kcr.method = "" then
          match env.byCred with
          | .found _ => some (true, [⟨"password", "", ""⟩])
          | _ =>
            match identity with
            | none => none
            | some i =>
              match i.password with
              | some creds =>
                match creds.identifiers with
                | id0 :: _ => some (true, [⟨"password", id0, ""⟩])
                | [] => some (true, [⟨"none", "", ""⟩])
              | none => some (false, [])
        else
          some (false, [])
      match passStep with
      | none => none
      | some r1 =>
        if kcr.method = "oidc" ∨ kcr.method = "" then
          match identity with
          | none => some (.ok r1.1 r1.2)
          | some i =>
            match i.oidc with
            | some creds =>
              some (.ok true (r1.2 ++ creds.providers.map (fun p => ⟨"oidc", "", p⟩)))
            | none =>
              if r1.1 then some (.ok r1.1 r1.2)
              else some (.ok true (r1.2 ++ [⟨"none", "", ""⟩]))
        else
          some (.ok r1.1 r1.2)

/-- The `knownCredentials` handler of the second document of
`src/unnamed/part_001`: it extracts `oidcCreds`/`passwordCreds` upfront under
an `identity != nil` guard, its password-branch `none` arm requires both
credential types absent, and its OIDC-branch `none` arm additionally requires
`passwordCreds == nil`. -/
def knownCredentialsPart001 (kcr : KCRequest) (env : ProbeEnv) : KCResult :=
  if kcr.identifier = "" then
    .badRequest
  else if kcr.method ≠ "" ∧ kcr.method ≠ "oidc" ∧ kcr.method ≠ "password" then
    .badRequest
  else
    match lookupIdentity env with
    | .error _ => .internalError
    | .ok identity =>
      let oidcCreds := identity.bind (fun i => i.oidc)
      let passwordCreds := identity.bind (fun i => i.password)
      let r1 : Bool × List KCMethod :=
        if kcr.method = "password" ∨ kcr.method = "" then
          match env.byCred with
          | .found _ => (true, [⟨"password", "", ""⟩])
          | _ =>
            match identity with
            | none => (false, [])
            | some _ =>
              match passwordCreds with
              | some creds =>
                match creds.identifiers with
                | id0 :: _ => (true, [⟨"password", id0, ""⟩])
                | [] => (false, [])
              | none =>
                match oidcCreds with
                | some _ => (false, [])
                | none => (true, [⟨"none", "", ""⟩])
        else
          (false, [])
      if kcr.method = "oidc" ∨ kcr.method = "" then
        match identity with
        | none => .ok r1.1 r1.2
        | some _ =>
          match oidcCreds with
          | some creds =>
            .ok true (r1.2 ++ creds.providers.map (fun p => ⟨"oidc", "", p⟩))
          | none =>
            match passwordCreds with
            | some _ => .ok r1.1 r1.2
            | none =>
              if r1.1 then .ok r1.1 r1.2
              else .ok true (r1.2 ++ [⟨"none", "", ""⟩])
      else
        .ok r1.1 r1.2

/-- A request body both copies consider well-formed. -/
def validRequest (kcr : KCRequest) : Prop :=
  kcr.identifier ≠ "" ∧ (kcr.method = "" ∨ kcr.method = "password" ∨ kcr.method = "oidc")

/-- Resolved identity holding no credentials of either type. -/
def identNoCreds : KIdentity := ⟨none, none⟩

/-- Collaborator state: the identifier resolves to a credential-less
identity, and the direct credential-identifier lookup finds nothing. -/
def envNoCreds : ProbeEnv := ⟨.found (), .found identNoCreds, .notFound⟩

/-- Collaborator state: the identifier is unregistered everywhere. -/
def envUnregistered : ProbeEnv := ⟨.notFound, .notFound, .notFound⟩

/-- Resolved identity holding password credentials with one recorded
identifier and no OIDC credentials. -/
def identPasswordOnly : KIdentity := ⟨some ⟨["user1"], []⟩, none⟩

/-- Collaborator state: the identifier resolves to `identPasswordOnly`. -/
def envPasswordOnly : ProbeEnv := ⟨.found (), .found identPasswordOnly, .notFound⟩

/-- Collaborator state: the identifier resolves to an identity with only an
OIDC credential (provider `google`), and the credential-identifier lookup
fails with a non-not-found store error. -/
def envByCredFailure : ProbeEnv := ⟨.found (), .found ⟨none, some ⟨[], ["google"]⟩⟩, .failure⟩

/-- Collaborator state: the address lookup fails with a non-not-found store
error. -/
def envAddrFailure : ProbeEnv := ⟨.failure, .notFound, .notFound⟩

/-- Collaborator state: the address resolves but the identity lookup fails
with a non-not-found store error. -/
def envIdentFailure : ProbeEnv := ⟨.found (), .failure, .notFound⟩

/-- Collaborator state: the identifier resolves to an identity holding both
password credentials (with a recorded identifier) and an OIDC credential. -/
def envBothCreds : ProbeEnv :=
  ⟨.found (), .found ⟨some ⟨["user1"], []⟩, some ⟨[], ["google"]⟩⟩, .notFound⟩

/-! ### Token and secret lemmas -/

theorem base32Char_injective : Function.Injective base32Char := by
  decide

theorem RandomSecret_injective : Function.Injective RandomSecret := by
  intro d1 d2 h
  have h2 : List.ofFn (fun i => base32Char (d1 i)) = List.ofFn (fun i => base32Char (d2 i)) :=
    congrArg String.data h
  have h3 := List.ofFn_injective h2
  funext i
  exact base32Char_injective (congrFun h3 i)

theorem codeSecretCount_eq : codeSecretCount = 32 ^ 16 := by
  rw [codeSecretCount, Finset.card_image_of_injective _ RandomSecret_injective,
    Finset.card_univ, Fintype.card_fun, Fintype.card_fin, Fintype.card_fin]

/-! ### Reconciler lemmas -/

namespace SchemaExtensionVerification

@[simp] theorem newVEA_value (v : String) : (NewVerifiableEmailAddress v).value = v := rfl

@[simp] theorem newVEA_via (v : String) : (NewVerifiableEmailAddress v).via = "email" := rfl

@[simp] theorem newVEA_verified (v : String) : (NewVerifiableEmailAddress v).verified = false := rfl

theorem resolve_value (ex : List VerifiableAddress) (v : String) :
    (resolve ex v).value = v := by
  rw [resolve]
  cases h : has ex (NewVerifiableEmailAddress v) with
  | none => simp
  | some a =>
    have hp := List.find?_some h
    simp at hp
    simp [hp.1]

theorem resolve_via (ex : List VerifiableAddress) (v : String) :
    (resolve ex v).via = "email" := by
  rw [resolve]
  cases h : has ex (NewVerifiableEmailAddress v) with
  | none => simp
  | some a =>
    have hp := List.find?_some h
    simp at hp
    simp [hp.2]

theorem has_congr (ex : List VerifiableAddress) {a b : VerifiableAddress}
    (hv : a.value = b.value) (hw : a.via = b.via) : has ex a = has ex b := by
  simp only [has, hv, hw]

theorem has_map_resolve (ex : List VerifiableAddress) (ks : List String) (v : String) :
    has (ks.map (resolve ex)) (NewVerifiableEmailAddress v)
      = if v ∈ ks then some (resolve ex v) else none := by
  induction ks with
  | nil => simp [has]
  | cons k ks ih =>
    simp only [List.map_cons, has, newVEA_value, newVEA_via] at *
    rw [List.find?_cons]
    by_cases hk : k = v
    · subst hk
      simp [resolve_value, resolve_via]
    · have hp : ((resolve ex k).value == v && (resolve ex k).via == "email") = false := by
        simp [resolve_value, resolve_via, hk]
      rw [hp, ih]
      simp [Ne.symm hk]

theorem resolve_eq_of_has (ex : List VerifiableAddress) (v : String)
    {a : VerifiableAddress} (h : has ex (NewVerifiableEmailAddress v) = some a) :
    resolve ex v = a := by
  rw [resolve, h, Option.getD_some]

theorem resolve_eq_of_has_none (ex : List VerifiableAddress) (v : String)
    (h : has ex (NewVerifiableEmailAddress v) = none) :
    resolve ex v = NewVerifiableEmailAddress v := by
  rw [resolve, h, Option.getD_none]

theorem runFields_cons (ef : String → Bool) (r : SchemaExtensionVerification)
    (f : TraitField) (fs : List TraitField) :
    runFields ef r (f :: fs)
      = match Run ef r f.via f.value with
        | .error e => .error e
        | .ok r2 => runFields ef r2 fs := rfl

theorem Run_email (ef : String → Bool) (r : SchemaExtensionVerification) (value : String)
    (hfmt : ef value = true) :
    Run ef r "email" value
      = match has r.i (NewVerifiableEmailAddress value) with
        | some exA =>
          match has r.v (NewVerifiableEmailAddress value) with
          | none => .ok { r with v := r.v ++ [exA] }
          | some _ => .ok r
        | none =>
          match has r.v (NewVerifiableEmailAddress value) with
          | none => .ok { r with v := r.v ++ [NewVerifiableEmailAddress value] }
          | some _ => .ok r := by
  rw [Run, if_pos rfl, hfmt, if_neg (by decide : ¬(true = false))]

theorem Run_empty (ef : String → Bool) (r : SchemaExtensionVerification) (value : String) :
    Run ef r "" value = .ok r := by
  rw [Run, if_neg (by decide : ¬(("" : String) = "email")), if_pos rfl]

theorem Run_other (ef : String → Bool) (r : SchemaExtensionVerification)
    (via value : String) (h1 : via ≠ "email") (h2 : via ≠ "") :
    Run ef r via value = .error (.unknownVia via) := by
  rw [Run, if_neg h1, if_neg h2]

theorem accVals_email_mem (ks : List String) (fs : List TraitField) (value : String)
    (h : value ∈ ks) :
    accVals ks (⟨"email", value⟩ :: fs) = accVals ks fs := by
  rw [accVals, if_pos rfl, if_pos h]

theorem accVals_email_not_mem (ks : List String) (fs : List TraitField) (value : String)
    (h : value ∉ ks) :
    accVals ks (⟨"email", value⟩ :: fs) = accVals (ks ++ [value]) fs := by
  rw [accVals, if_pos rfl, if_neg h]

theorem accVals_not_email (ks : List String) (fs : List TraitField) (via value : String)
    (h : via ≠ "email") :
    accVals ks (⟨via, value⟩ :: fs) = accVals ks fs := by
  rw [accVals, if_neg h]

theorem runFields_ok_char (ef : String → Bool) (ex : List VerifiableAddress) :
    ∀ (fields : List TraitField) (ks : List String),
      (∀ f ∈ fields, fieldOk ef f = true) →
      runFields ef ⟨ex, ks.map (resolve ex)⟩ fields
        = .ok ⟨ex, (accVals ks fields).map (resolve ex)⟩ := by
  intro fields
  induction fields with
  | nil =>
    intro ks _
    simp [runFields, accVals]
  | cons f fs ih =>
    intro ks hok
    have hf : fieldOk ef f = true := hok f (by simp)
    have hfs : ∀ g ∈ fs, fieldOk ef g = true := fun g hg => hok g (by simp [hg])
    rcases f with ⟨via, value⟩
    rw [runFields_cons]
    by_cases hvia : via = "email"
    · subst hvia
      have hfmt : ef value = true := by simpa [fieldOk] using hf
      rw [Run_email ef _ value hfmt]
      cases hex : has ex (NewVerifiableEmailAddress value) with
      | some exA =>
        simp only [hex, has_map_resolve]
        by_cases hmem : value ∈ ks
        · rw [if_pos hmem, accVals_email_mem ks fs value hmem]
          exact ih ks hfs
        · rw [if_neg hmem, accVals_email_not_mem ks fs value hmem]
          have hres : List.map (resolve ex) ks ++ [exA] = List.map (resolve ex) (ks ++ [value]) := by
            rw [List.map_append, List.map_singleton, resolve_eq_of_has ex value hex]
          simp only []
          rw [hres]
          exact ih (ks ++ [value]) hfs
      | none =>
        simp only [hex, has_map_resolve]
        by_cases hmem : value ∈ ks
        · rw [if_pos hmem, accVals_email_mem ks fs value hmem]
          exact ih ks hfs
        · rw [if_neg hmem, accVals_email_not_mem ks fs value hmem]
          have hres : List.map (resolve ex) ks ++ [NewVerifiableEmailAddress value]
              = List.map (resolve ex) (ks ++ [value]) := by
            rw [List.map_append, List.map_singleton, resolve_eq_of_has_none ex value hex]
          simp only []
          rw [hres]
          exact ih (ks ++ [value]) hfs
    · by_cases hvia2 : via = ""
      · subst hvia2
        rw [Run_empty, accVals_not_email ks fs "" value hvia]
        exact ih ks hfs
      · exfalso
        rw [fieldOk] at hf
        simp only [if_neg hvia, if_neg hvia2] at hf
        exact Bool.false_ne_true hf

theorem Run_ok_fieldOk (ef : String → Bool) (r r2 : SchemaExtensionVerification)
    (via value : String) (h : Run ef r via value = .ok r2) :
    fieldOk ef ⟨via, value⟩ = true := by
  by_cases h1 : via = "email"
  · subst h1
    by_cases h2 : ef value = true
    · simp [fieldOk, h2]
    · exfalso
      have h2f : ef value = false := by
        revert h2
        cases ef value <;> simp
      rw [Run, if_pos rfl, h2f, if_pos rfl] at h
      exact Except.noConfusion h
  · by_cases h2 : via = ""
    · subst h2
      simp [fieldOk, h1]
    · exfalso
      rw [Run_other ef r via value h1 h2] at h
      exact Except.noConfusion h

theorem runFields_ok_fieldOk (ef : String → Bool) :
    ∀ (fields : List TraitField) (r st : SchemaExtensionVerification),
      runFields ef r fields = .ok st → ∀ f ∈ fields, fieldOk ef f = true := by
  intro fields
  induction fields with
  | nil => intro r st _ f hf; cases hf
  | cons f fs ih =>
    intro r st h g hg
    rw [runFields_cons] at h
    cases hr : Run ef r f.via f.value with
    | error e =>
      rw [hr] at h
      exact Except.noConfusion h
    | ok r2 =>
      rw [hr] at h
      rcases List.mem_cons.mp hg with rfl | hg2
      · exact Run_ok_fieldOk ef r r2 g.via g.value hr
      · exact ih r2 st h g hg2

theorem reconcile_ok_char (ef : String → Bool) (ex : List VerifiableAddress)
    (fields : List TraitField) (h : ∀ f ∈ fields, fieldOk ef f = true) :
    reconcile ef ex fields = .ok ((accVals [] fields).map (resolve ex)) := by
  rw [reconcile]
  have h0 : (⟨ex, []⟩ : SchemaExtensionVerification) = ⟨ex, ([] : List String).map (resolve ex)⟩ := rfl
  rw [h0, runFields_ok_char ef ex fields [] h]
  rfl

theorem reconcile_ok_elim (ef : String → Bool) (ex : List VerifiableAddress)
    (fields : List TraitField) (out : List VerifiableAddress)
    (h : reconcile ef ex fields = .ok out) :
    (∀ f ∈ fields, fieldOk ef f = true) ∧ out = (accVals [] fields).map (resolve ex) := by
  have hrf : ∃ st, runFields ef ⟨ex, []⟩ fields = .ok st := by
    rw [reconcile] at h
    cases hr : runFields ef ⟨ex, []⟩ fields with
    | error e => rw [hr] at h; exact Except.noConfusion h
    | ok st => exact ⟨st, rfl⟩
  rcases hrf with ⟨st, hst⟩
  have hok := runFields_ok_fieldOk ef fields _ st hst
  refine ⟨hok, ?_⟩
  have hchar := reconcile_ok_char ef ex fields hok
  rw [h] at hchar
  exact Except.ok.inj hchar

theorem exists_mem_cons_split {α : Type} {p : α → Prop} {a : α} {l : List α} :
    (∃ x ∈ a :: l, p x) ↔ p a ∨ ∃ x ∈ l, p x := by
  constructor
  · rintro ⟨x, hx, hp⟩
    rcases List.mem_cons.mp hx with rfl | hx2
    · exact Or.inl hp
    · exact Or.inr ⟨x, hx2, hp⟩
  · rintro (hp | ⟨x, hx, hp⟩)
    · exact ⟨a, List.mem_cons_self a l, hp⟩
    · exact ⟨x, List.mem_cons_of_mem a hx, hp⟩

theorem accVals_nodup : ∀ (fields : List TraitField) (ks : List String),
    ks.Nodup → (accVals ks fields).Nodup := by
  intro fields
  induction fields with
  | nil =>
    intro ks h
    simpa [accVals] using h
  | cons f fs ih =>
    intro ks h
    rw [accVals]
    apply ih
    by_cases h1 : f.via = "email"
    · rw [if_pos h1]
      by_cases h2 : f.value ∈ ks
      · rw [if_pos h2]; exact h
      · rw [if_neg h2]
        simp [List.nodup_append, h, h2]
    · rw [if_neg h1]; exact h

theorem mem_accVals : ∀ (fields : List TraitField) (ks : List String) (k : String),
    k ∈ accVals ks fields ↔ k ∈ ks ∨ ∃ f ∈ fields, f.via = "email" ∧ f.value = k := by
  intro fields
  induction fields with
  | nil => simp [accVals]
  | cons f fs ih =>
    intro ks k
    rw [accVals, ih, exists_mem_cons_split]
    by_cases h1 : f.via = "email"
    · by_cases h2 : f.value ∈ ks
      · rw [if_pos h1, if_pos h2]
        constructor
        · rintro (hk | hE)
          · exact Or.inl hk
          · exact Or.inr (Or.inr hE)
        · rintro (hk | ⟨hvia, hval⟩ | hE)
          · exact Or.inl hk
          · exact Or.inl (hval ▸ h2)
          · exact Or.inr hE
      · rw [if_pos h1, if_neg h2]
        constructor
        · rintro (hk | hE)
          · rcases List.mem_append.mp hk with hk2 | hk2
            · exact Or.inl hk2
            · exact Or.inr (Or.inl ⟨h1, (List.mem_singleton.mp hk2).symm⟩)
          · exact Or.inr (Or.inr hE)
        · rintro (hk | ⟨hvia, hval⟩ | hE)
          · exact Or.inl (List.mem_append.mpr (Or.inl hk))
          · exact Or.inl (List.mem_append.mpr (Or.inr (by simp [hval])))
          · exact Or.inr hE
    · rw [if_neg h1]
      constructor
      · rintro (hk | hE)
        · exact Or.inl hk
        · exact Or.inr (Or.inr hE)
      · rintro (hk | ⟨hvia, hval⟩ | hE)
        · exact Or.inl hk
        · exact absurd hvia h1
        · exact Or.inr hE

theorem resolve_map_resolve (ex : List VerifiableAddress) (ks : List String) (k : String)
    (h : k ∈ ks) : resolve (ks.map (resolve ex)) k = resolve ex k := by
  rw [resolve, has_map_resolve, if_pos h, Option.getD_some]

/-- C2: after every reconciliation pass that succeeds, the produced
verifiable-address list contains no duplicate `(value, via)` pairs; every
produced address whose `(value, via)` pair already occurred in the
pre-existing list is that pre-existing entry itself, so its prior `verified`
flag is retained rather than reset; and every email trait field of the pass
yields exactly one entry carrying its value (two fields with the same value
yield one entry). -/
theorem reconcile_nodup_preserves (ef : String → Bool)
    (existing : List VerifiableAddress) (fields : List TraitField)
    (out : List VerifiableAddress) (h : reconcile ef existing fields = .ok out) :
    List.Pairwise (fun a b => ¬(a.value = b.value ∧ a.via = b.via)) out
    ∧ (∀ a ∈ out, ∀ e, has existing a = some e → a = e)
    ∧ (∀ v, (⟨"email", v⟩ : TraitField) ∈ fields →
        (out.filter (fun a => a.value == v && a.via == "email")).length = 1) := by
  obtain ⟨hok, hout⟩ := reconcile_ok_elim ef existing fields out h
  subst hout
  refine ⟨?_, ?_, ?_⟩
  · have hnd : (accVals [] fields).Nodup := accVals_nodup fields [] List.nodup_nil
    refine List.Pairwise.map (resolve existing) ?_ hnd
    intro a b hab hcontra
    rcases hcontra with ⟨hv, _⟩
    rw [resolve_value, resolve_value] at hv
    exact hab hv
  · intro a ha e he
    rcases List.mem_map.mp ha with ⟨k, hk, rfl⟩
    have hcong : has existing (resolve existing k) = has existing (NewVerifiableEmailAddress k) :=
      has_congr existing (by rw [resolve_value, newVEA_value]) (by rw [resolve_via, newVEA_via])
    cases hex : has existing (NewVerifiableEmailAddress k) with
    | some e0 =>
      rw [hcong, hex] at he
      cases he
      exact resolve_eq_of_has existing k hex
    | none =>
      rw [hcong, hex] at he
      exact Option.noConfusion he
  · intro v hv
    have hmem : v ∈ accVals [] fields :=
      (mem_accVals fields [] v).mpr (Or.inr ⟨⟨"email", v⟩, hv, rfl, rfl⟩)
    have hnd : (accVals [] fields).Nodup := accVals_nodup fields [] List.nodup_nil
    rw [List.filter_map, List.length_map]
    have hfc : (accVals [] fields).filter
          ((fun a => a.value == v && a.via == "email") ∘ (resolve existing))
        = (accVals [] fields).filter (fun k => k == v) := by
      apply List.filter_congr
      intro k hk
      simp [Function.comp, resolve_value, resolve_via]
    rw [hfc]
    have hc := List.count_eq_one_of_mem hnd hmem
    rw [List.count_eq_countP, List.countP_eq_length_filter] at hc
    exact hc

/-- Witness for C2: the concrete pass carries over the verified entry once
and adds the fresh one once. -/
theorem reconcile_nodup_preserves_witness :
    (reconcile efW exW fsW = .ok outW)
    ∧ (List.Pairwise (fun a b => ¬(a.value = b.value ∧ a.via = b.via)) outW
       ∧ (∀ a ∈ outW, ∀ e, has exW a = some e → a = e)
       ∧ (∀ v, (⟨"email", v⟩ : TraitField) ∈ fsW →
           (outW.filter (fun a => a.value == v && a.via == "email")).length = 1)) :=
  ⟨rfl, reconcile_nodup_preserves efW exW fsW outW rfl⟩

/-- C6: `Finish` replaces the identity's verifiable-address list with the
accumulated set in its entirety; an existing verified address whose value is
still produced by some email trait field stays in the final list with
`verified = true`; a value produced by no field of the pass has no entry in
the final list. -/
theorem finish_replaces_keeps_drops (ef : String → Bool)
    (existing : List VerifiableAddress) (fields : List TraitField)
    (st : SchemaExtensionVerification)
    (h : runFields ef ⟨existing, []⟩ fields = .ok st) :
    Finish st = st.v
    ∧ reconcile ef existing fields = .ok (Finish st)
    ∧ (∀ v e, has existing (NewVerifiableEmailAddress v) = some e → e.verified = true →
        (⟨"email", v⟩ : TraitField) ∈ fields →
        ∃ a ∈ Finish st, a.value = v ∧ a.via = "email" ∧ a.verified = true)
    ∧ (∀ v, (∀ f ∈ fields, ¬(f.via = "email" ∧ f.value = v)) →
        ∀ a ∈ Finish st, ¬(a.value = v ∧ a.via = "email")) := by
  have hok := runFields_ok_fieldOk ef fields _ st h
  have hchar := runFields_ok_char ef existing fields [] hok
  have h0 : (⟨existing, []⟩ : SchemaExtensionVerification)
      = ⟨existing, ([] : List String).map (resolve existing)⟩ := rfl
  rw [← h0, h] at hchar
  have hst : st = ⟨existing, (accVals [] fields).map (resolve existing)⟩ := Except.ok.inj hchar
  refine ⟨rfl, ?_, ?_, ?_⟩
  · rw [reconcile, h]
    rfl
  · intro v e he hever hf
    refine ⟨resolve existing v, ?_, resolve_value existing v, resolve_via existing v, ?_⟩
    · rw [Finish, hst]
      exact List.mem_map.mpr
        ⟨v, (mem_accVals fields [] v).mpr (Or.inr ⟨⟨"email", v⟩, hf, rfl, rfl⟩), rfl⟩
    · rw [resolve_eq_of_has existing v he]
      exact hever
  · intro v hnone a ha hcontra
    rw [Finish, hst] at ha
    rcases List.mem_map.mp ha with ⟨k, hk, rfl⟩
    rcases (mem_accVals fields [] k).mp hk with hk0 | ⟨f, hf, hfe, hfv⟩
    · cases hk0
    · apply hnone f hf
      refine ⟨hfe, ?_⟩
      rw [hfv, ← hcontra.1, resolve_value]

/-- Witness for C6: the concrete pass keeps the verified entry and the final
list is exactly the accumulator. -/
theorem finish_replaces_keeps_drops_witness :
    (runFields efW ⟨exW, []⟩ fsW = .ok stW)
    ∧ (Finish stW = stW.v
       ∧ reconcile efW exW fsW = .ok (Finish stW)
       ∧ (∀ v e, has exW (NewVerifiableEmailAddress v) = some e → e.verified = true →
           (⟨"email", v⟩ : TraitField) ∈ fsW →
           ∃ a ∈ Finish stW, a.value = v ∧ a.via = "email" ∧ a.verified = true)
       ∧ (∀ v, (∀ f ∈ fsW, ¬(f.via = "email" ∧ f.value = v)) →
           ∀ a ∈ Finish stW, ¬(a.value = v ∧ a.via = "email"))) :=
  ⟨rfl, finish_replaces_keeps_drops efW exW fsW stW rfl⟩

/-- C7: a second reconciliation pass over the unchanged trait document,
starting from the list the first pass produced, succeeds and returns that
same list, members and `verified` flags included. -/
theorem reconcile_idempotent (ef : String → Bool) (existing : List VerifiableAddress)
    (fields : List TraitField) (out : List VerifiableAddress)
    (h : reconcile ef existing fields = .ok out) :
    reconcile ef out fields = .ok out := by
  obtain ⟨hok, hout⟩ := reconcile_ok_elim ef existing fields out h
  subst hout
  rw [reconcile_ok_char ef _ fields hok]
  congr 1
  apply List.map_congr_left
  intro k hk
  exact resolve_map_resolve existing (accVals [] fields) k hk

/-- Witness for C7: rerunning the concrete pass over its own output is a
fixed point. -/
theorem reconcile_idempotent_witness :
    (reconcile efW exW fsW = .ok outW) ∧ reconcile efW outW fsW = .ok outW :=
  ⟨rfl, reconcile_idempotent efW exW fsW outW rfl⟩

end SchemaExtensionVerification

/-! ### Claim theorems: code engine, token validity, token creation -/

/-- C1: immediately after derivation, the code of the current 24-hour window
verifies; the code computed for the window at the current time minus 24 hours
also verifies; a submitted code verifies exactly when it equals one of those
two window codes (no other window is accepted); hence a code that only equals
the code of the window at the current time minus 48 hours is rejected. -/
theorem verify_code_two_windows (hotp : String → Nat → Nat)
    (serviceSecret tokenSecret : String) (now : Nat) (h : 2 * 86400 ≤ now) :
    VerifyTokenCode hotp serviceSecret tokenSecret
        (GetCode hotp serviceSecret tokenSecret now) now = true
    ∧ VerifyTokenCode hotp serviceSecret tokenSecret
        (GetCode hotp serviceSecret tokenSecret (now - 86400)) now = true
    ∧ (∀ code, VerifyTokenCode hotp serviceSecret tokenSecret code now = true ↔
        (code = GetCode hotp serviceSecret tokenSecret now
         ∨ code = GetCode hotp serviceSecret tokenSecret (now - 86400)))
    ∧ (∀ code, code = GetCode hotp serviceSecret tokenSecret (now - 2 * 86400) →
        code ≠ GetCode hotp serviceSecret tokenSecret now →
        code ≠ GetCode hotp serviceSecret tokenSecret (now - 86400) →
        VerifyTokenCode hotp serviceSecret tokenSecret code now = false) := by
  have key : ∀ code, VerifyTokenCode hotp serviceSecret tokenSecret code now = true ↔
      (code = GetCode hotp serviceSecret tokenSecret now
       ∨ code = GetCode hotp serviceSecret tokenSecret (now - 86400)) := by
    intro code
    rw [VerifyTokenCode, GetCode, GetCode]
    by_cases h1 : code = totpAt hotp (combineSecret serviceSecret tokenSecret) now
    · simp [h1]
    · rw [if_neg h1]
      by_cases h2 : code = totpAt hotp (combineSecret serviceSecret tokenSecret) (now - 86400)
      · simp [h1, h2]
      · simp [h1, h2]
  refine ⟨(key _).mpr (Or.inl rfl), (key _).mpr (Or.inr rfl), key, ?_⟩
  intro code _ hne1 hne2
  cases hb : VerifyTokenCode hotp serviceSecret tokenSecret code now with
  | false => rfl
  | true =>
    rcases (key code).mp hb with hc | hc
    · exact absurd hc hne1
    · exact absurd hc hne2

/-- Witness for C1 at a concrete generator, secrets and timestamp. -/
theorem verify_code_two_windows_witness :
    2 * 86400 ≤ 172800
    ∧ (VerifyTokenCode hotpW "svc" "tok" (GetCode hotpW "svc" "tok" 172800) 172800 = true
       ∧ VerifyTokenCode hotpW "svc" "tok" (GetCode hotpW "svc" "tok" (172800 - 86400)) 172800 = true
       ∧ (∀ code, VerifyTokenCode hotpW "svc" "tok" code 172800 = true ↔
           (code = GetCode hotpW "svc" "tok" 172800
            ∨ code = GetCode hotpW "svc" "tok" (172800 - 86400)))
       ∧ (∀ code, code = GetCode hotpW "svc" "tok" (172800 - 2 * 86400) →
           code ≠ GetCode hotpW "svc" "tok" 172800 →
           code ≠ GetCode hotpW "svc" "tok" (172800 - 86400) →
           VerifyTokenCode hotpW "svc" "tok" code 172800 = false)) :=
  ⟨by decide, verify_code_two_windows hotpW "svc" "tok" 172800 (by decide)⟩

/-- C3 counterexample: a token expiring at time 5, checked at time 5
(`now = expiresAt`, so `now ≥ expiresAt`), succeeds, while the claim requires
a failure at the boundary. -/
theorem valid_boundary_counterexample :
    ¬ ((Valid tokC3 5).isSome = true ↔ 5 ≥ tokC3.ExpiresAt) := by
  decide

/-- C3 amended: `Valid` fails, with the expired error carrying the expiry
timestamp, exactly when `now` is strictly past `ExpiresAt`; it succeeds
exactly when `now ≤ ExpiresAt`, and in particular succeeds at the boundary
`now = ExpiresAt`. -/
theorem valid_expired_iff (f : VerificationToken) (now : Nat) :
    (Valid f now = some f.ExpiresAt ↔ f.ExpiresAt < now)
    ∧ (Valid f now = none ↔ now ≤ f.ExpiresAt)
    ∧ Valid f f.ExpiresAt = none := by
  refine ⟨?_, ?_, ?_⟩ <;> rw [Valid]
  · constructor
    · intro hv
      by_contra hlt
      rw [if_neg hlt] at hv
      exact Option.noConfusion hv
    · intro hlt
      rw [if_pos hlt]
  · constructor
    · intro hv
      by_contra hle
      rw [if_pos (by omega)] at hv
      exact Option.noConfusion hv
    · intro hle
      rw [if_neg (by omega)]
  · rw [if_neg (lt_irrefl _)]

/-- C5 counterexample: the code-based secret material is
`gotp.RandomSecret(16)`, which ranges over only `32 ^ 16 = 2 ^ 80` distinct
strings — strictly fewer than the `2 ^ 128` needed for at least 128 bits of
randomness. -/
theorem code_secret_not_128_bits : codeSecretCount < 2 ^ 128 := by
  rw [codeSecretCount_eq]
  decide

theorem alphaNumChar_mem : ∀ d : Fin 62, alphaNumChars.contains (alphaNumChar d) = true := by
  decide

/-- C5 amended: creation with `useCode = true` draws the 16-character base32
secret (exactly 80 bits of randomness), with `useCode = false` the URL-safe
32-character alphanumeric string; in both cases `IssuedAt` is the current
time, `ExpiresAt = IssuedAt + expiresIn`, and the address and flow are
bound. -/
theorem new_token_spec (useCode : Bool) (address : VerifiableAddress)
    (flowID expiresIn now : Nat) (rand : TokenRand) :
    (NewSelfServiceVerificationToken useCode address flowID expiresIn now rand).Token
        = (if useCode then RandomSecret rand.codeDraw else MustString rand.linkDraw)
    ∧ (NewSelfServiceVerificationToken useCode address flowID expiresIn now rand).IssuedAt = now
    ∧ (NewSelfServiceVerificationToken useCode address flowID expiresIn now rand).ExpiresAt
        = now + expiresIn
    ∧ (NewSelfServiceVerificationToken useCode address flowID expiresIn now rand).VerifiableAddress
        = address
    ∧ (NewSelfServiceVerificationToken useCode address flowID expiresIn now rand).FlowID
        = some flowID
    ∧ (MustString rand.linkDraw).data.length = 32
    ∧ (MustString rand.linkDraw).data.all (fun c => alphaNumChars.contains c) = true
    ∧ codeSecretCount = 2 ^ 80 := by
  refine ⟨rfl, rfl, rfl, rfl, rfl, ?_, ?_, ?_⟩
  · show (List.ofFn (fun i => alphaNumChar (rand.linkDraw i))).length = 32
    exact List.length_ofFn _
  · show (List.ofFn (fun i => alphaNumChar (rand.linkDraw i))).all _ = true
    rw [List.all_eq_true]
    intro c hc
    rcases (List.mem_ofFn _ c).mp hc with ⟨i, rfl⟩
    exact alphaNumChar_mem (rand.linkDraw i)
  · rw [codeSecretCount_eq]
    decide

/-! ### Claim theorems: credential-discovery probe -/

/-- C4: for a resolved identity holding no password-type and no OIDC-type
credentials, the part_001 probe answers `found = true` with the single method
entry `none` under each of the three valid filters; the handler.go copy,
whose password-branch `none` arm is only reachable when password credentials
exist with an empty identifier list (contradicting its own comment), instead
answers `found = false` with no methods when the filter is `password`. -/
theorem known_credentials_none_entry :
    knownCredentialsPart001 ⟨"x", ""⟩ envNoCreds = .ok true [⟨"none", "", ""⟩]
    ∧ knownCredentialsPart001 ⟨"x", "password"⟩ envNoCreds = .ok true [⟨"none", "", ""⟩]
    ∧ knownCredentialsPart001 ⟨"x", "oidc"⟩ envNoCreds = .ok true [⟨"none", "", ""⟩]
    ∧ knownCredentialsHandlerGo ⟨"x", ""⟩ envNoCreds = some (.ok true [⟨"none", "", ""⟩])
    ∧ knownCredentialsHandlerGo ⟨"x", "oidc"⟩ envNoCreds = some (.ok true [⟨"none", "", ""⟩])
    ∧ knownCredentialsHandlerGo ⟨"x", "password"⟩ envNoCreds = some (.ok false []) :=
  ⟨rfl, rfl, rfl, rfl, rfl, rfl⟩

/-- C8: for an identifier that resolves nowhere (no verifiable address, no
credential-identifier match), the part_001 probe returns `found = false` with
an empty method list and no error under each valid filter; the handler.go
copy only does so under the `oidc` filter — whenever its password branch runs
it calls `GetCredentials` on the nil identity and crashes. -/
theorem known_credentials_unregistered :
    knownCredentialsPart001 ⟨"x", ""⟩ envUnregistered = .ok false []
    ∧ knownCredentialsPart001 ⟨"x", "password"⟩ envUnregistered = .ok false []
    ∧ knownCredentialsPart001 ⟨"x", "oidc"⟩ envUnregistered = .ok false []
    ∧ knownCredentialsHandlerGo ⟨"x", ""⟩ envUnregistered = none
    ∧ knownCredentialsHandlerGo ⟨"x", "password"⟩ envUnregistered = none
    ∧ knownCredentialsHandlerGo ⟨"x", "oidc"⟩ envUnregistered = some (.ok false []) :=
  ⟨rfl, rfl, rfl, rfl, rfl, rfl⟩

/-- C9 counterexample: a credential-identifier lookup failing with a
non-not-found store error does not abort the request — both copies still
return a 200 payload assembled from the remaining lookups, not an internal
error. -/
theorem known_credentials_byCred_failure_no_abort :
    envByCredFailure.byCred = .failure
    ∧ knownCredentialsPart001 ⟨"x", ""⟩ envByCredFailure = .ok true [⟨"oidc", "", "google"⟩]
    ∧ knownCredentialsHandlerGo ⟨"x", ""⟩ envByCredFailure
        = some (.ok true [⟨"oidc", "", "google"⟩])
    ∧ knownCredentialsPart001 ⟨"x", ""⟩ envByCredFailure ≠ .internalError
    ∧ knownCredentialsHandlerGo ⟨"x", ""⟩ envByCredFailure ≠ some .internalError :=
  ⟨rfl, rfl, rfl, by decide, by decide⟩

/-- C9 amended: both copies reject an empty identifier, and any method other
than empty, `password` or `oidc`, with a bad request whose outcome is
independent of the collaborator state (no lookup influences it); a
non-not-found failure of the address lookup or of the identity lookup aborts
with an internal error and no payload; a failure of the credential-identifier
lookup, however, is treated like not-found and does not abort. -/
theorem known_credentials_error_handling (kcr : KCRequest) (env : ProbeEnv) :
    (kcr.identifier = "" →
      knownCredentialsHandlerGo kcr env = some .badRequest
      ∧ knownCredentialsPart001 kcr env = .badRequest)
    ∧ (kcr.method ≠ "" → kcr.method ≠ "password" → kcr.method ≠ "oidc" →
      knownCredentialsHandlerGo kcr env = some .badRequest
      ∧ knownCredentialsPart001 kcr env = .badRequest)
    ∧ (validRequest kcr → env.addr = .failure →
      knownCredentialsHandlerGo kcr env = some .internalError
      ∧ knownCredentialsPart001 kcr env = .internalError)
    ∧ (∀ u, validRequest kcr → env.addr = .found u → env.ident = .failure →
      knownCredentialsHandlerGo kcr env = some .internalError
      ∧ knownCredentialsPart001 kcr env = .internalError) := by
  refine ⟨?_, ?_, ?_, ?_⟩
  · intro h
    constructor
    · rw [knownCredentialsHandlerGo, if_pos h]
    · rw [knownCredentialsPart001, if_pos h]
  · intro h1 h2 h3
    by_cases h0 : kcr.identifier = ""
    · constructor
      · rw [knownCredentialsHandlerGo, if_pos h0]
      · rw [knownCredentialsPart001, if_pos h0]
    · have hm : kcr.method ≠ "" ∧ kcr.method ≠ "oidc" ∧ kcr.method ≠ "password" := ⟨h1, h3, h2⟩
      constructor
      · rw [knownCredentialsHandlerGo, if_neg h0, if_pos hm]
      · rw [knownCredentialsPart001, if_neg h0, if_pos hm]
  · rintro ⟨h0, hm⟩ haddr
    have hmneg : ¬(kcr.method ≠ "" ∧ kcr.method ≠ "oidc" ∧ kcr.method ≠ "password") := by
      rcases hm with hm | hm | hm <;> simp [hm]
    have hlk : lookupIdentity env = .error () := by
      rw [lookupIdentity, haddr]
    constructor
    · rw [knownCredentialsHandlerGo, if_neg h0, if_neg hmneg, hlk]
    · rw [knownCredentialsPart001, if_neg h0, if_neg hmneg, hlk]
  · rintro u ⟨h0, hm⟩ haddr hident
    have hmneg : ¬(kcr.method ≠ "" ∧ kcr.method ≠ "oidc" ∧ kcr.method ≠ "password") := by
      rcases hm with hm | hm | hm <;> simp [hm]
    have hlk : lookupIdentity env = .error () := by
      rw [lookupIdentity, haddr, hident]
    constructor
    · rw [knownCredentialsHandlerGo, if_neg h0, if_neg hmneg, hlk]
    · rw [knownCredentialsPart001, if_neg h0, if_neg hmneg, hlk]

/-- Witness for C9 at concrete requests and collaborator states, one for each
error path. -/
theorem known_credentials_error_handling_witness :
    (knownCredentialsHandlerGo ⟨"", ""⟩ envUnregistered = some .badRequest
     ∧ knownCredentialsPart001 ⟨"", ""⟩ envUnregistered = .badRequest)
    ∧ (knownCredentialsHandlerGo ⟨"x", "saml"⟩ envUnregistered = some .badRequest
       ∧ knownCredentialsPart001 ⟨"x", "saml"⟩ envUnregistered = .badRequest)
    ∧ (knownCredentialsHandlerGo ⟨"x", ""⟩ envAddrFailure = some .internalError
       ∧ knownCredentialsPart001 ⟨"x", ""⟩ envAddrFailure = .internalError)
    ∧ (knownCredentialsHandlerGo ⟨"x", ""⟩ envIdentFailure = some .internalError
       ∧ knownCredentialsPart001 ⟨"x", ""⟩ envIdentFailure = .internalError) :=
  ⟨(known_credentials_error_handling ⟨"", ""⟩ envUnregistered).1 rfl,
   (known_credentials_error_handling ⟨"x", "saml"⟩ envUnregistered).2.1
     (by decide) (by decide) (by decide),
   (known_credentials_error_handling ⟨"x", ""⟩ envAddrFailure).2.2.1
     ⟨by decide, Or.inl rfl⟩ rfl,
   (known_credentials_error_handling ⟨"x", ""⟩ envIdentFailure).2.2.2 ()
     ⟨by decide, Or.inl rfl⟩ rfl rfl⟩

/-- C10 counterexample: an identifier resolving to an identity with password
credentials (one identifier) and no OIDC credentials, probed with filter
`oidc`: the handler.go copy answers `found = true` with a `none` entry while
the part_001 copy answers `found = false` with no methods. -/
theorem known_credentials_copies_disagree :
    knownCredentialsHandlerGo ⟨"x", "oidc"⟩ envPasswordOnly
        = some (.ok true [⟨"none", "", ""⟩])
    ∧ knownCredentialsPart001 ⟨"x", "oidc"⟩ envPasswordOnly = .ok false []
    ∧ knownCredentialsHandlerGo ⟨"x", "oidc"⟩ envPasswordOnly
        ≠ some (knownCredentialsPart001 ⟨"x", "oidc"⟩ envPasswordOnly) :=
  ⟨rfl, rfl, by decide⟩

theorem kc_agree_of_lookup_error (kcr : KCRequest) (env : ProbeEnv)
    (h : lookupIdentity env = .error ()) :
    knownCredentialsHandlerGo kcr env = some (knownCredentialsPart001 kcr env) := by
  by_cases h0 : kcr.identifier = ""
  · rw [knownCredentialsHandlerGo, knownCredentialsPart001, if_pos h0, if_pos h0]
  · by_cases hm : kcr.method ≠ "" ∧ kcr.method ≠ "oidc" ∧ kcr.method ≠ "password"
    · rw [knownCredentialsHandlerGo, knownCredentialsPart001, if_neg h0, if_neg h0,
        if_pos hm, if_pos hm]
    · rw [knownCredentialsHandlerGo, knownCredentialsPart001, if_neg h0, if_neg h0,
        if_neg hm, if_neg hm, h]

theorem kc_agree_resolved (kcr : KCRequest) (env : ProbeEnv) (i : KIdentity)
    (pc oc : Credentials) (hlk : lookupIdentity env = .ok (some i))
    (hp : i.password = some pc) (hpcne : pc.identifiers ≠ []) (hoc : i.oidc = some oc) :
    knownCredentialsHandlerGo kcr env = some (knownCredentialsPart001 kcr env) := by
  obtain ⟨id0, rest, hpc⟩ : ∃ id0 rest, pc.identifiers = id0 :: rest := by
    cases hl : pc.identifiers with
    | nil => exact absurd hl hpcne
    | cons a l => exact ⟨a, l, rfl⟩
  obtain ⟨idf, mth⟩ := kcr
  by_cases h0 : idf = ""
  · rw [knownCredentialsHandlerGo, knownCredentialsPart001]
    simp [h0]
  · by_cases hm : mth ≠ "" ∧ mth ≠ "oidc" ∧ mth ≠ "password"
    · rw [knownCredentialsHandlerGo, knownCredentialsPart001]
      simp [h0, hm.1, hm.2.1, hm.2.2]
    · have hcases : mth = "" ∨ mth = "oidc" ∨ mth = "password" := by
        by_contra hc
        push_neg at hc
        exact hm ⟨hc.1, hc.2.1, hc.2.2⟩
      rcases hcases with rfl | rfl | rfl
      · cases hbc : env.byCred with
        | found u =>
          simp only [knownCredentialsHandlerGo, knownCredentialsPart001, hlk, hbc, hp, hoc,
            hpc, Option.bind]
          simp [h0]
        | notFound =>
          simp only [knownCredentialsHandlerGo, knownCredentialsPart001, hlk, hbc, hp, hoc,
            hpc, Option.bind]
          simp [h0]
        | failure =>
          simp only [knownCredentialsHandlerGo, knownCredentialsPart001, hlk, hbc, hp, hoc,
            hpc, Option.bind]
          simp [h0]
      · simp only [knownCredentialsHandlerGo, knownCredentialsPart001, hlk, hp, hoc, hpc,
          Option.bind]
        simp [h0]
      · cases hbc : env.byCred with
        | found u =>
          simp only [knownCredentialsHandlerGo, knownCredentialsPart001, hlk, hbc, hp, hoc,
            hpc, Option.bind]
          simp [h0]
        | notFound =>
          simp only [knownCredentialsHandlerGo, knownCredentialsPart001, hlk, hbc, hp, hoc,
            hpc, Option.bind]
          simp [h0]
        | failure =>
          simp only [knownCredentialsHandlerGo, knownCredentialsPart001, hlk, hbc, hp, hoc,
            hpc, Option.bind]
          simp [h0]

/-- C10 amended: the two copies of `knownCredentials` produce the same
result on every bad-request input (empty identifier or unsupported method),
on every non-not-found failure of the address or identity lookup, and on
every input whose resolved identity holds both password credentials with at
least one recorded identifier and OIDC credentials; outside this domain they
can disagree. -/
theorem known_credentials_copies_agree (kcr : KCRequest) (env : ProbeEnv) :
    (kcr.identifier = "" →
      knownCredentialsHandlerGo kcr env = some (knownCredentialsPart001 kcr env))
    ∧ (kcr.method ≠ "" → kcr.method ≠ "password" → kcr.method ≠ "oidc" →
      knownCredentialsHandlerGo kcr env = some (knownCredentialsPart001 kcr env))
    ∧ (env.addr = .failure →
      knownCredentialsHandlerGo kcr env = some (knownCredentialsPart001 kcr env))
    ∧ (∀ u, env.addr = .found u → env.ident = .failure →
      knownCredentialsHandlerGo kcr env = some (knownCredentialsPart001 kcr env))
    ∧ (∀ i pc oc u, env.addr = .found u → env.ident = .found i →
        i.password = some pc → pc.identifiers ≠ [] → i.oidc = some oc →
      knownCredentialsHandlerGo kcr env = some (knownCredentialsPart001 kcr env)) := by
  refine ⟨?_, ?_, ?_, ?_, ?_⟩
  · intro h0
    rw [knownCredentialsHandlerGo, knownCredentialsPart001, if_pos h0, if_pos h0]
  · intro h1 h2 h3
    by_cases h0 : kcr.identifier = ""
    · rw [knownCredentialsHandlerGo, knownCredentialsPart001, if_pos h0, if_pos h0]
    · have hm : kcr.method ≠ "" ∧ kcr.method ≠ "oidc" ∧ kcr.method ≠ "password" := ⟨h1, h3, h2⟩
      rw [knownCredentialsHandlerGo, knownCredentialsPart001, if_neg h0, if_neg h0,
        if_pos hm, if_pos hm]
  · intro haddr
    apply kc_agree_of_lookup_error
    rw [lookupIdentity, haddr]
  · intro u haddr hident
    apply kc_agree_of_lookup_error
    rw [lookupIdentity, haddr, hident]
  · intro i pc oc u haddr hident hp hpcne hoc
    apply kc_agree_resolved kcr env i pc oc ?_ hp hpcne hoc
    rw [lookupIdentity, haddr, hident]

/-- Witness for C10 at concrete inputs, one per agreement clause. -/
theorem known_credentials_copies_agree_witness :
    (knownCredentialsHandlerGo ⟨"", ""⟩ envUnregistered
       = some (knownCredentialsPart001 ⟨"", ""⟩ envUnregistered))
    ∧ (knownCredentialsHandlerGo ⟨"x", "saml"⟩ envUnregistered
       = some (knownCredentialsPart001 ⟨"x", "saml"⟩ envUnregistered))
    ∧ (knownCredentialsHandlerGo ⟨"x", ""⟩ envAddrFailure
       = some (knownCredentialsPart001 ⟨"x", ""⟩ envAddrFailure))
    ∧ (knownCredentialsHandlerGo ⟨"x", ""⟩ envIdentFailure
       = some (knownCredentialsPart001 ⟨"x", ""⟩ envIdentFailure))
    ∧ (knownCredentialsHandlerGo ⟨"x", ""⟩ envBothCreds
       = some (knownCredentialsPart001 ⟨"x", ""⟩ envBothCreds)) :=
  ⟨(known_credentials_copies_agree ⟨"", ""⟩ envUnregistered).1 rfl,
   (known_credentials_copies_agree ⟨"x", "saml"⟩ envUnregistered).2.1
     (by decide) (by decide) (by decide),
   (known_credentials_copies_agree ⟨"x", ""⟩ envAddrFailure).2.2.1 rfl,
   (known_credentials_copies_agree ⟨"x", ""⟩ envIdentFailure).2.2.2.1 () rfl rfl,
   (known_credentials_copies_agree ⟨"x", ""⟩ envBothCreds).2.2.2.2
     ⟨some ⟨["user1"], []⟩, some ⟨[], ["google"]⟩⟩ ⟨["user1"], []⟩ ⟨[], ["google"]⟩ ()
     rfl rfl rfl (by decide) rfl⟩
